import Mathlib

/-!
# Verification of the Recent Sales / dashboard UI test-suite helpers

The repository is a Playwright-based end-to-end test suite.  Its pure logic
lives in a handful of helper functions that are duplicated across test files:
alternating-case search inputs, invoice-date parsing against a list of
candidate formats, total-record-count extraction from page text, and two
small assertion loops.  This file gives a shallow embedding of those helpers
and proves the frozen claims about them.

Conventions of the embedding:

* Text scraped from the browser is modelled as a list of Unicode code points
  (`Str := List Nat`), so Python string helpers become pure arithmetic
  functions.  `S` converts a Lean string literal to that representation.
* Character classes (`str.isalpha`, `str.isdigit`, `\s`, `str.lower`,
  `str.upper`, `str.casefold`) are modelled by their ASCII rules, the
  fragment exercised by the test data.
* Functions that raise (`assert`, `raise AssertionError`) are modelled with
  `Except`/`Option`: an `error`/`none` result is a raised exception.
* Browser interactions (filling a field and reading the resulting record
  count, counting elements that match a selector) are abstracted as function
  parameters: the tests treat them as opaque oracles.
-/

/-- Code points of text scraped from the page. -/
abbrev Str := List Nat

/-- Code-point list of a Lean string literal. -/
def S (s : String) : Str := s.data.map Char.toNat

/-- ASCII decimal digit, the class matched by the regex token `\d`. -/
def isDigitCp (n : Nat) : Bool := decide (48 ≤ n ∧ n ≤ 57)

/-- ASCII whitespace: space, tab, newline, vertical tab, form feed, carriage
return.  This is the class matched by the regex token `\s` and stripped by
`str.strip` on the ASCII texts the tests scrape. -/
def isSpaceCp (n : Nat) : Bool := decide (n = 32 ∨ (9 ≤ n ∧ n ≤ 13))

/-- ASCII uppercase letter. -/
def isUpperCp (n : Nat) : Bool := decide (65 ≤ n ∧ n ≤ 90)

/-- ASCII lowercase letter. -/
def isLowerCp (n : Nat) : Bool := decide (97 ≤ n ∧ n ≤ 122)

/-- Python `ch.isalpha()` restricted to ASCII letters. -/
def isAlphaCp (n : Nat) : Bool := isUpperCp n || isLowerCp n

/-- Python `ch.lower()` on one code point (ASCII rule). -/
def lowerCp (n : Nat) : Nat := if isUpperCp n then n + 32 else n

/-- Python `ch.upper()` on one code point (ASCII rule). -/
def upperCp (n : Nat) : Nat := if isLowerCp n then n - 32 else n

/-- Python `text.casefold()` (ASCII rule: same as lowercasing every character). -/
def casefoldStr (s : Str) : Str := s.map lowerCp

/-- Python `text.strip()`: drop whitespace from both ends. -/
def pyStrip (s : Str) : Str :=
  ((s.dropWhile isSpaceCp).reverse.dropWhile isSpaceCp).reverse

/-- Python `text.isdigit()` (ASCII rule): nonempty and all decimal digits. -/
def pyIsDigitStr (s : Str) : Bool := !s.isEmpty && s.all isDigitCp

/-- Python `int(text)` on a string of decimal digits. -/
def natOfDigits (ds : Str) : Nat := ds.foldl (fun a d => a * 10 + (d - 48)) 0

/-- Number of alphabetic characters of a string (ASCII rule). -/
def alphaCount (s : Str) : Nat := (s.filter isAlphaCp).length

/-- Total indexing into a code-point list (`0` when out of range). -/
def nthCp (s : Str) (i : Nat) : Nat := s.getD i 0

namespace ModelField

/-!
Embedding of `src/tests/recent_sales/test_rsp_model_field.py`.
-/

/-- The `for ch in prefix` loop body of `build_alternating_case_prefix`,
with `k` the running `alpha_index` accumulator. -/
def altCaseGo : Str → Nat → Str
  | [], _ => []
  | c :: cs, k =>
    if isAlphaCp c then
      (if k % 2 = 0 then lowerCp c else upperCp c) :: altCaseGo cs (k + 1)
    else
      c :: altCaseGo cs k

/-- Helper `build_alternating_case_prefix(base, length)`: take `base[:length]` and
alternate the case of its alphabetic characters, counting alphabetic
characters only; other characters are kept as they are. -/
def build_alternating_case_prefix (base : Str) (length : Nat) : Str :=
  altCaseGo (base.take length) 0



/-- The prefix-iteration loop of `test_rsp_model_field` (lines 276-298).
`search` abstracts `search_by_model`: filling the Model field with a value
and reading back the Total Record Count.  The loop walks `i = 1 .. n`,
searches with the length-`i` alternating-case value, asserts that the new
count does not exceed the previous one (`Except.error i` is the raised
`AssertionError` of iteration `i`), and carries the new count forward. -/
def narrowRun (search : Str → Nat) (full : Str) : Nat → List Nat → Except Nat Nat
  | prev, [] => Except.ok prev
  | prev, i :: rest =>
    let updated := search ( build_alternating_case_prefix full i)
    if updated ≤ prev then narrowRun search full updated rest
    else Except.error i

/-- The whole iteration: indices `range(1, len(full_model_name) + 1)`,
starting from the blank-search count `total`. -/
def narrowIteration (search : Str → Nat) (full : Str) (total : Nat) : Except Nat Nat :=
  narrowRun search full total (List.range' 1 full.length)

/-- The sequence of record counts the loop observes: `iterCounts 0` is the
blank-search count, `iterCounts i` for `i ≥ 1` is the count returned when
searching with the length-`i` alternating-case value. -/
def iterCounts (search : Str → Nat) (full : Str) (total : Nat) : Nat → Nat
  | 0 => total
  | i + 1 => search ( build_alternating_case_prefix full (i + 1))

end ModelField


namespace ManufacturerField

/-!
Embedding of `build_alternating_case_prefix` from
`src/tests/recent_sales/test_rsp_manufacturer_field.py` (a verbatim copy of
the Model-field helper).
-/

/-- The `for ch in prefix` loop body, `k` being `alpha_index`. -/
def altCaseGo : Str → Nat → Str
  | [], _ => []
  | c :: cs, k =>
    if isAlphaCp c then
      (if k % 2 = 0 then lowerCp c else upperCp c) :: altCaseGo cs (k + 1)
    else
      c :: altCaseGo cs k

/-- Helper `build_alternating_case_prefix(base, length)` of the Manufacturer test. -/
def build_alternating_case_prefix (base : Str) (length : Nat) : Str :=
  altCaseGo (base.take length) 0

end ManufacturerField

namespace SourceIdField

/-!
Embedding of `build_alternating_case_prefix` from
`src/tests/tests/recent_sales/test_rsp_source_id_field.py` (a verbatim copy
of the Model-field helper).
-/

/-- The `for ch in prefix` loop body, `k` being `alpha_index`. -/
def altCaseGo : Str → Nat → Str
  | [], _ => []
  | c :: cs, k =>
    if isAlphaCp c then
      (if k % 2 = 0 then lowerCp c else upperCp c) :: altCaseGo cs (k + 1)
    else
      c :: altCaseGo cs k

/-- Helper `build_alternating_case_prefix(base, length)` of the Source ID test. -/
def build_alternating_case_prefix (base : Str) (length : Nat) : Str :=
  altCaseGo (base.take length) 0

end SourceIdField

namespace InvoiceDateField

/-!
Embedding of `parse_invoice_date` from
`src/tests/recent_sales/test_rsp_invoice_date_field.py`.  The six
`datetime.strptime` candidate formats are modelled by hand-rolled parsers
that follow the regexes CPython compiles for them: `%Y` is `\d\d\d\d`,
`%y` is `\d\d`, `%m` is `(1[0-2]|0[1-9]|[1-9])`, `%d` is
`(3[01]|[12]\d|0[1-9]|[1-9])`, `%b`/`%B` are case-insensitive month-name
alternations, a space in the format is `\s+`, the whole string must match,
and the matched numbers must form a constructible `datetime.date`
(`ValueError` otherwise, which `strptime` surfaces and the helper catches).
Since in all six formats every element after a numeric field rejects a
digit, each numeric field must consume a maximal digit run, which is how
the parsers below read them.
-/

/-- The result of `datetime.strptime(...).date()`. -/
structure Date where
  year : Nat
  month : Nat
  day : Nat
deriving DecidableEq, Repr

/-- Gregorian leap-year rule used by `datetime.date`. -/
def isLeap (y : Nat) : Bool := y % 4 == 0 && (y % 100 != 0 || y % 400 == 0)

/-- Number of days of month `m` in year `y` (months 1-12). -/
def daysInMonth (y m : Nat) : Nat :=
  if m = 2 then (if isLeap y then 29 else 28)
  else if m = 4 ∨ m = 6 ∨ m = 9 ∨ m = 11 then 30
  else 31

/-- Arguments accepted by the `datetime.date` constructor
(`MINYEAR = 1`, `MAXYEAR = 9999`). -/
def validDate (y m d : Nat) : Bool :=
  decide (1 ≤ y ∧ y ≤ 9999 ∧ 1 ≤ m ∧ m ≤ 12 ∧ 1 ≤ d ∧ d ≤ daysInMonth y m)

/-- Constructor `datetime.date(y, m, d)`: `none` models the raised `ValueError`. -/
def mkDate (y m d : Nat) : Option Date :=
  if validDate y m d then some ⟨y, m, d⟩ else none

/-- Format `%Y`: exactly four digits. -/
def parseY4 (s : Str) : Option (Nat × Str) :=
  let ds := s.takeWhile isDigitCp
  if ds.length = 4 then some (natOfDigits ds, s.dropWhile isDigitCp) else none

/-- Format `%y`: exactly two digits; `strptime` maps 00-68 to 2000-2068 and
69-99 to 1969-1999. -/
def parseY2 (s : Str) : Option (Nat × Str) :=
  let ds := s.takeWhile isDigitCp
  if ds.length = 2 then
    let v := natOfDigits ds
    some ((if v ≤ 68 then v + 2000 else v + 1900), s.dropWhile isDigitCp)
  else none

/-- Format `%m`: one digit `1-9` or two digits `01-12`. -/
def parseMonth2 (s : Str) : Option (Nat × Str) :=
  let ds := s.takeWhile isDigitCp
  let v := natOfDigits ds
  if (ds.length = 2 ∧ 1 ≤ v ∧ v ≤ 12) ∨ (ds.length = 1 ∧ 1 ≤ v ∧ v ≤ 9) then
    some (v, s.dropWhile isDigitCp)
  else none

/-- Format `%d`: one digit `1-9` or two digits `01-31`. -/
def parseDay2 (s : Str) : Option (Nat × Str) :=
  let ds := s.takeWhile isDigitCp
  let v := natOfDigits ds
  if (ds.length = 2 ∧ 1 ≤ v ∧ v ≤ 31) ∨ (ds.length = 1 ∧ 1 ≤ v ∧ v ≤ 9) then
    some (v, s.dropWhile isDigitCp)
  else none

/-- A literal character of the format string. -/
def expectCp (c : Nat) (s : Str) : Option Str :=
  match s with
  | [] => none
  | x :: rest => if x = c then some rest else none

/-- A space in the format string: the regex `\s+`. -/
def parseWs (s : Str) : Option Str :=
  let ws := s.takeWhile isSpaceCp
  if ws.isEmpty then none else some (s.dropWhile isSpaceCp)

/-- Abbreviated month names of `%b` (C / en_US locale) with their month
numbers; all have three letters, so at most one can match. -/
def MONTH_ABBREVS : List (Str × Nat) :=
  [(S "jan", 1), (S "feb", 2), (S "mar", 3), (S "apr", 4), (S "may", 5),
   (S "jun", 6), (S "jul", 7), (S "aug", 8), (S "sep", 9), (S "oct", 10),
   (S "nov", 11), (S "dec", 12)]

/-- Full month names of `%B` with their month numbers, in the
longest-first order in which the compiled regex alternation tries them. -/
def MONTH_NAMES : List (Str × Nat) :=
  [(S "september", 9), (S "february", 2), (S "november", 11),
   (S "december", 12), (S "january", 1), (S "october", 10),
   (S "august", 8), (S "april", 4), (S "march", 3), (S "june", 6),
   (S "july", 7), (S "may", 5)]

/-- Case-insensitive month-name alternation: the first listed name that
matches a prefix of the input wins. -/
def parseMonthName (names : List (Str × Nat)) (s : Str) : Option (Nat × Str) :=
  match names with
  | [] => none
  | (nm, v) :: rest =>
    if (s.take nm.length).map lowerCp = nm then some (v, s.drop nm.length)
    else parseMonthName rest s

/-- Format `%Y-%m-%d` (`2025-10-30`); code point 45 is the hyphen. -/
def strptimeYMD (s : Str) : Option Date := do
  let (y, r1) ← parseY4 s
  let r2 ← expectCp 45 r1
  let (m, r3) ← parseMonth2 r2
  let r4 ← expectCp 45 r3
  let (d, r5) ← parseDay2 r4
  if r5.isEmpty then mkDate y m d else none

/-- Format `%m/%d/%Y` (`10/30/2025`); code point 47 is the slash. -/
def strptimeMDY (s : Str) : Option Date := do
  let (m, r1) ← parseMonth2 s
  let r2 ← expectCp 47 r1
  let (d, r3) ← parseDay2 r2
  let r4 ← expectCp 47 r3
  let (y, r5) ← parseY4 r4
  if r5.isEmpty then mkDate y m d else none

/-- Format `%m/%d/%y` (`10/30/25`). -/
def strptimeMDy (s : Str) : Option Date := do
  let (m, r1) ← parseMonth2 s
  let r2 ← expectCp 47 r1
  let (d, r3) ← parseDay2 r2
  let r4 ← expectCp 47 r3
  let (y, r5) ← parseY2 r4
  if r5.isEmpty then mkDate y m d else none

/-- Format `%b. %d, %Y` (`Oct. 30, 2025`); 46 is the period, 44 the comma. -/
def strptimeAbbrevDot (s : Str) : Option Date := do
  let (m, r1) ← parseMonthName MONTH_ABBREVS s
  let r2 ← expectCp 46 r1
  let r3 ← parseWs r2
  let (d, r4) ← parseDay2 r3
  let r5 ← expectCp 44 r4
  let r6 ← parseWs r5
  let (y, r7) ← parseY4 r6
  if r7.isEmpty then mkDate y m d else none

/-- Format `%b %d, %Y` (`Oct 30, 2025`). -/
def strptimeAbbrev (s : Str) : Option Date := do
  let (m, r1) ← parseMonthName MONTH_ABBREVS s
  let r2 ← parseWs r1
  let (d, r3) ← parseDay2 r2
  let r4 ← expectCp 44 r3
  let r5 ← parseWs r4
  let (y, r6) ← parseY4 r5
  if r6.isEmpty then mkDate y m d else none

/-- Format `%B %d, %Y` (`October 30, 2025`). -/
def strptimeFull (s : Str) : Option Date := do
  let (m, r1) ← parseMonthName MONTH_NAMES s
  let r2 ← parseWs r1
  let (d, r3) ← parseDay2 r2
  let r4 ← expectCp 44 r3
  let r5 ← parseWs r4
  let (y, r6) ← parseY4 r5
  if r6.isEmpty then mkDate y m d else none

/-- The `POSSIBLE_FORMATS` list of candidate formats, in source order. -/
def POSSIBLE_FORMATS : List (Str → Option Date) :=
  [strptimeYMD, strptimeMDY, strptimeMDy, strptimeAbbrevDot, strptimeAbbrev,
   strptimeFull]

/-- The `for fmt in POSSIBLE_FORMATS` loop: each `strptime` attempt either
returns (`some`) or raises `ValueError` (`none`) and the next format is
tried; the first success wins. -/
def firstFormat (fmts : List (Str → Option Date)) (t : Str) : Option Date :=
  match fmts with
  | [] => none
  | f :: rest =>
    match f t with
    | some d => some d
    | none => firstFormat rest t

/-- Helper `parse_invoice_date(text)`: strip, try the formats in order, raise an
`AssertionError` (modelled by `Except.error`) when none matches. -/
def parse_invoice_date (text : Str) : Except Str Date :=
  match firstFormat POSSIBLE_FORMATS (pyStrip text) with
  | some d => Except.ok d
  | none => Except.error (S "Unrecognized Invoice Date format")

/-- Code point of one decimal digit value. -/
def digitCp (k : Nat) : Nat := 48 + k

/-- Python `date.isoformat()`: `YYYY-MM-DD`, zero padded. -/
def isoformat (dt : Date) : Str :=
  [digitCp (dt.year / 1000 % 10), digitCp (dt.year / 100 % 10),
   digitCp (dt.year / 10 % 10), digitCp (dt.year % 10), 45,
   digitCp (dt.month / 10 % 10), digitCp (dt.month % 10), 45,
   digitCp (dt.day / 10 % 10), digitCp (dt.day % 10)]

end InvoiceDateField

namespace InvoiceDateStartEnd

/-!
Embedding of `parse_invoice_date` from
`src/tests/recent_sales/test_rsp_invoice_date_start_end_fields.py`: a
verbatim copy of the helper above, with the format list locally named
`POTENTIAL_DATE_FORMATS`.  The `strptime` models are the shared standard
library and are reused.
-/

/-- The `POTENTIAL_DATE_FORMATS` list: the same six formats, same order. -/
def POTENTIAL_DATE_FORMATS : List (Str → Option InvoiceDateField.Date) :=
  [InvoiceDateField.strptimeYMD, InvoiceDateField.strptimeMDY,
   InvoiceDateField.strptimeMDy, InvoiceDateField.strptimeAbbrevDot,
   InvoiceDateField.strptimeAbbrev, InvoiceDateField.strptimeFull]

/-- Helper `parse_invoice_date(text)` of the start/end-fields test. -/
def parse_invoice_date (text : Str) : Except Str InvoiceDateField.Date :=
  match InvoiceDateField.firstFormat POTENTIAL_DATE_FORMATS (pyStrip text) with
  | some d => Except.ok d
  | none => Except.error (S "Unrecognized Invoice Date format")

end InvoiceDateStartEnd

namespace ModelField

/-!
`get_total_record_count` of `test_rsp_model_field.py` (the same function
appears verbatim in the other Recent Sales test files): strip the text of
the `Total Record Count` paragraph, run
`re.search(r"Total Record Count\s+(\d+)", text)`, assert a match and
return `int(match.group(1))`.
-/

/-- The literal part of the regex. -/
def trcLit : Str := S "Total Record Count"

/-- Attempt of the regex `Total Record Count\s+(\d+)` anchored at the head
of `s`: the literal, then a nonempty maximal whitespace run, then a
nonempty maximal digit run; since `\s` and `\d` are disjoint classes, the
greedy maximal runs are the only candidates the backtracking engine can
settle on.  Returns the integer value of the captured group. -/
def matchAt (s : Str) : Option Nat :=
  if trcLit.isPrefixOf s then
    if ((s.drop trcLit.length).takeWhile isSpaceCp).isEmpty then none
    else
      if (((s.drop trcLit.length).dropWhile isSpaceCp).takeWhile isDigitCp).isEmpty
      then none
      else
        some (natOfDigits
          (((s.drop trcLit.length).dropWhile isSpaceCp).takeWhile isDigitCp))
  else none

/-- Python `re.search`: try the pattern at every offset, leftmost match wins. -/
def reSearch : Str → Option Nat
  | [] => none
  | c :: rest =>
    match matchAt (c :: rest) with
    | some n => some n
    | none => reSearch rest

/-- Helper `get_total_record_count` applied to the scraped paragraph text:
`Except.error` models the `assert match` failure. -/
def get_total_record_count (text : Str) : Except Str Nat :=
  match reSearch (pyStrip text) with
  | some n => Except.ok n
  | none => Except.error (S "Could not parse Total Record Count")

/-- Specification-side description of one regex match at the head of `a`:
`a` decomposes as the literal, a nonempty whitespace run, a nonempty digit
run not followed by a further digit, and `n` is the value of the digit
run.  (The character after the whitespace run is a digit, so the
whitespace run is maximal; `rest` starts with a non-digit, so the digit
run is maximal: the decomposition is the regex match.) -/
def patMatchHead (a : Str) (n : Nat) : Prop :=
  ∃ ws ds rest, a = trcLit ++ ws ++ ds ++ rest ∧
    ws ≠ [] ∧ (∀ c ∈ ws, isSpaceCp c = true) ∧
    ds ≠ [] ∧ (∀ c ∈ ds, isDigitCp c = true) ∧
    (∀ c, rest.head? = some c → isDigitCp c = false) ∧
    n = natOfDigits ds

/-- A regex match at offset `i` of `s`. -/
def patMatchAt (s : Str) (i n : Nat) : Prop := patMatchHead (s.drop i) n

end ModelField

namespace StatusSpecs

/-!
Embedding of `assert_status_cell_matches_spec` from
`src/tests/recent_sales/test_rsp_status_field_expired.py` together with the
`STATUS_UI_SPECS` table from
`src/config/config/status_ui_spec_definitions.py`.  A table cell is
abstracted as the count of elements inside it that match each CSS selector,
plus its inner text.
-/

/-- Record `StatusUISpec`: texts that must appear somewhere within the status cell
and CSS selectors of icons that must exist in the cell. -/
structure StatusUISpec where
  must_contain : List Str
  required_icon_selectors : List Str
deriving DecidableEq

/-- The `STATUS_UI_SPECS` dictionary, as its entry list in source order. -/
def STATUS_UI_SPECS : List (Str × StatusUISpec) :=
  [(S "Dismissed",
     { must_contain := [S "Dismissed", S "Dismissed"],
       required_icon_selectors := [S "i.bi-dash-circle-fill.text-secondary"] }),
   (S "Expired",
     { must_contain := [S "Ineligible", S "Expired"],
       required_icon_selectors := [S "i.bi-x-circle-fill.text-danger"] }),
   (S "Exported",
     { must_contain := [S "Submitted", S "Exported"],
       required_icon_selectors := [S "i.bi-dash-circle-fill.text-secondary"] }),
   (S "Incomplete Requirements",
     { must_contain := [S "Incomplete", S "Incomplete Requirements"],
       required_icon_selectors := [S "i.bi-exclamation.text-warning"] }),
   (S "Ineligible",
     { must_contain := [S "Ineligible", S "Ineligible"],
       required_icon_selectors := [S "i.bi-x-circle-fill.text-danger"] }),
   (S "Ready",
     { must_contain := [S "Submitted", S "Ready"],
       required_icon_selectors := [S "i.bi-check-circle-fill.text-success"] }),
   (S "Unassigned",
     { must_contain := [S "Incomplete", S "Unassigned"],
       required_icon_selectors := [S "i.bi-exclamation.text-danger"] })]

/-- Abstraction of the Playwright cell locator: how many elements inside
the cell match a selector, and the inner text of the cell. -/
structure Cell where
  locatorCount : Str → Nat
  innerText : Str

/-- Python substring containment `t in s`, executable form. -/
def containsSub (t : Str) : Str → Bool
  | [] => t.isEmpty
  | c :: rest => t.isPrefixOf (c :: rest) || containsSub t rest

/-- Holds when `t` occurs as a contiguous substring of `s`. -/
def occursIn (t s : Str) : Prop := ∃ pre post, s = pre ++ t ++ post

/-- Helper `assert_status_cell_matches_spec(cell, status_key=...)`: look the key
up in `STATUS_UI_SPECS` (`none` models the `KeyError` of a missing key),
assert that every required icon selector matches at least one element of
the cell, then assert that every required fragment occurs in the stripped
cell text; `some false` models a raised `AssertionError`. -/
def assert_status_cell_matches_spec (cell : Cell) (status_key : Str) :
    Option Bool :=
  match STATUS_UI_SPECS.lookup status_key with
  | none => none
  | some spec =>
    some
      (spec.required_icon_selectors.all
          (fun sel => decide (1 ≤ cell.locatorCount sel)) &&
        spec.must_contain.all
          (fun t => containsSub t (pyStrip cell.innerText)))

end StatusSpecs

namespace UnassignedWidget

/-!
Embedding of the tail of `test_dashboard_sales_summary_section`
(`src/tests/tests/dashboard/test_dashboard_unassigned_widget.py`, lines
97-107 and 161-178): the Unassigned counter text is stripped and asserted
to be a digit string; the Total Record Count paragraph text is stripped,
asserted to start with the literal, the literal is removed with
`str.replace` and the remainder stripped and asserted to be a digit
string; finally `int(total_record_count) == int(unassigned_counter)` is
asserted.
-/

/-- Python `text.replace("Total Record Count", "")`: remove every occurrence of
the literal, scanning left to right. -/
def removeTRC (s : Str) : Str :=
  match s with
  | [] => []
  | c :: rest =>
    if ModelField.trcLit.isPrefixOf (c :: rest) then
      removeTRC (rest.drop (ModelField.trcLit.length - 1))
    else c :: removeTRC rest
termination_by s.length
decreasing_by
  · simp only [List.length_drop, List.length_cons]
    omega
  · simp only [List.length_cons]
    omega

/-- The assertion chain from the counter read to the final comparison.
`none` models a failed precondition `assert` (a non-digit counter, a
paragraph not starting with the literal, or a non-digit remainder); `some
b` is the outcome of the final assertion
`int(total_record_count) == int(unassigned_counter)`. -/
def finalComparison (totalText counterText : Str) : Option Bool :=
  if pyIsDigitStr (pyStrip counterText) then
    if ModelField.trcLit.isPrefixOf (pyStrip totalText) then
      if pyIsDigitStr (pyStrip (removeTRC (pyStrip totalText))) then
        some (natOfDigits (pyStrip (removeTRC (pyStrip totalText)))
          == natOfDigits (pyStrip counterText))
      else none
    else none
  else none

end UnassignedWidget

namespace MarketActorCheck

/-!
Embedding of `test_dashboard_market_actor_check`
(`src/tests/dashboard/test_dashboard_market_actor_check.py`).  One round of
the collection loop reads the card titles currently in the DOM and, when
it does not break, reads the Recent Sales Market Actor dropdown options;
these per-round browser observations are abstracted as a function from the
round number to the observed data.
-/

/-- What one round of the loop can observe in the browser. -/
structure MARound where
  cards : List Str
  options : List Str

/-- Comprehension `[t.strip() for t in texts if t and t.strip()]`: the stripped texts,
empty ones dropped (an empty `t` strips to the empty string, so one filter
on the stripped value is equivalent). -/
def cleanTexts (ts : List Str) : List Str :=
  (ts.map pyStrip).filter (fun t => !t.isEmpty)

/-- Python set insertion, modelled as an order-preserving de-duplicating
list: add `x` only when not yet present. -/
def insertName (s : List Str) (x : Str) : List Str :=
  if x ∈ s then s else s ++ [x]

/-- Python `dashboard_ma_names.update(texts)`. -/
def updateSet (s : List Str) (xs : List Str) : List Str := xs.foldl insertName s

/-- Comprehension `[o.strip() for o in options if o and o.strip() and o.strip() != "All"]`. -/
def activeOptions (opts : List Str) : List Str :=
  (opts.map pyStrip).filter (fun t => !t.isEmpty && t != S "All")

/-- Python `==` between the collected set and `set(active names)`:
extensional equality of the underlying membership. -/
def setEqB (a b : List Str) : Bool :=
  a.all (fun x => decide (x ∈ b)) && b.all (fun x => decide (x ∈ a))

/-- Outcome of the test body: the comparison passed (the test returns), the
comparison raised `AssertionError`, the loop broke out on stability (the
test then ends without comparing), or the `for` range was exhausted. -/
inductive MAResult where
  | passed (names : List Str)
  | assertFailed (names : List Str)
  | brokeOut (names : List Str)
  | fellThrough (names : List Str)
deriving DecidableEq

/-- The collected names an outcome carries. -/
def resultNames : MAResult → List Str
  | .passed ns => ns
  | .assertFailed ns => ns
  | .brokeOut ns => ns
  | .fellThrough ns => ns

/-- The `stable_rounds` value after one collection round: incremented when
the update added no new name (`before == after`), else reset to 0. -/
def stableAfter (names : List Str) (stable : Nat) (r : MARound) : Nat :=
  if names.length = (updateSet names (cleanTexts r.cards)).length then stable + 1
  else 0

/-- One iteration of `for _ in range(max_rounds)`: collect and de-duplicate
the card names, update `stable_rounds`, break once it reaches
`stable_rounds_to_stop = 2`; otherwise scroll, open Recent Sales, read the
dropdown options and compare.  Every branch of the body leaves the loop:
`break`, the `assert`/`raise` on a mismatch, or `return` on success. -/
def maStep (names : List Str) (stable : Nat) (r : MARound) : MAResult :=
  if 2 ≤ stableAfter names stable r then
    MAResult.brokeOut (updateSet names (cleanTexts r.cards))
  else
    if setEqB (updateSet names (cleanTexts r.cards)) (activeOptions r.options) then
      MAResult.passed (updateSet names (cleanTexts r.cards))
    else
      MAResult.assertFailed (updateSet names (cleanTexts r.cards))

/-- The `for` loop with its fuel `max_rounds`: round `k` runs the body,
which always leaves the loop; zero fuel means the range was exhausted. -/
def maRun (rounds : Nat → MARound) : Nat → Nat → List Str → Nat → MAResult
  | _, 0, names, _ => MAResult.fellThrough names
  | k, _ + 1, names, stable => maStep names stable (rounds k)

/-- Test `test_dashboard_market_actor_check`: start with the empty set,
`stable_rounds = 0`, `max_rounds = 10`. -/
def marketActorCheck (rounds : Nat → MARound) : MAResult :=
  maRun rounds 0 10 [] 0

end MarketActorCheck

namespace ModelField


theorem altCaseGo_length (cs : Str) (k : Nat) :
    (altCaseGo cs k).length = cs.length := by
  induction cs generalizing k with
  | nil => rfl
  | cons c cs ih =>
    simp only [altCaseGo]
    split <;> simp [ih]

theorem altCaseGo_nth (cs : Str) (k i : Nat) (hi : i < cs.length) :
    nthCp (altCaseGo cs k) i =
      (if isAlphaCp (nthCp cs i) then
        (if (k + alphaCount (cs.take i)) % 2 = 0 then lowerCp (nthCp cs i)
         else upperCp (nthCp cs i))
       else nthCp cs i) := by
  induction cs generalizing k i with
  | nil => simp at hi
  | cons c cs ih =>
    cases i with
    | zero =>
      simp only [nthCp, List.take_zero, alphaCount, List.filter_nil,
        List.length_nil, Nat.add_zero, List.getD_cons_zero, altCaseGo]
      split <;> simp_all
    | succ i =>
      have hi' : i < cs.length := by simpa using hi
      simp only [nthCp, List.getD_cons_succ, List.take_succ_cons, altCaseGo]
      by_cases hc : isAlphaCp c
      · have := ih (k + 1) i hi'
        simp only [nthCp] at this
        rw [if_pos hc, List.getD_cons_succ, this]
        have hcount : alphaCount (c :: cs.take i) =
            alphaCount (cs.take i) + 1 := by
          simp [alphaCount, List.filter_cons, hc]
        rw [hcount]
        have : k + 1 + alphaCount (cs.take i) =
            k + (alphaCount (cs.take i) + 1) := by omega
        rw [← this]
      · have := ih k i hi'
        simp only [nthCp] at this
        rw [if_neg hc, List.getD_cons_succ, this]
        have hcount : alphaCount (c :: cs.take i) = alphaCount (cs.take i) := by
          simp [alphaCount, List.filter_cons, hc]
        rw [hcount]

theorem altCaseGo_take (cs : Str) (k i : Nat) :
    altCaseGo (cs.take i) k = (altCaseGo cs k).take i := by
  induction cs generalizing k i with
  | nil => simp [altCaseGo]
  | cons c cs ih =>
    cases i with
    | zero => simp [altCaseGo]
    | succ i =>
      simp only [List.take_succ_cons, altCaseGo]
      split <;> simp [ih]

theorem altCaseGo_casefold (cs : Str) (k : Nat) :
    (altCaseGo cs k).map lowerCp = cs.map lowerCp := by
  have hlow : ∀ c : Nat, lowerCp (lowerCp c) = lowerCp c := by
    intro c
    simp only [lowerCp, isUpperCp, decide_eq_true_eq]
    split_ifs <;> omega
  have hup : ∀ c : Nat, lowerCp (upperCp c) = lowerCp c := by
    intro c
    simp only [lowerCp, upperCp, isUpperCp, isLowerCp, decide_eq_true_eq]
    split_ifs <;> omega
  induction cs generalizing k with
  | nil => rfl
  | cons c cs ih =>
    simp only [altCaseGo]
    split_ifs with h1 h2 <;> simp [ih, hlow, hup]

theorem iterCounts_pos (search : Str → Nat) (full : Str) (total : Nat)
    (i : Nat) (hi : 1 ≤ i) :
    iterCounts search full total i = search ( build_alternating_case_prefix full i) := by
  cases i with
  | zero => omega
  | succ i => rfl

theorem narrowRun_ok (search : Str → Nat) (full : Str) (total : Nat) :
    ∀ (len a : Nat), 1 ≤ a →
    (∀ i, a ≤ i → i < a + len →
      iterCounts search full total i ≤ iterCounts search full total (i - 1)) →
    narrowRun search full (iterCounts search full total (a - 1)) (List.range' a len)
      = Except.ok (iterCounts search full total (a + len - 1)) := by
  intro len
  induction len with
  | zero =>
    intro a ha _
    simp [narrowRun]
  | succ len ih =>
    intro a ha hall
    rw [List.range'_succ]
    simp only [narrowRun]
    rw [← iterCounts_pos search full total a ha]
    rw [if_pos (hall a le_rfl (by omega))]
    have := ih (a + 1) (by omega) (fun i h1 h2 => hall i (by omega) (by omega))
    simp only [Nat.add_sub_cancel] at this
    have harg : a + 1 + len - 1 = a + (len + 1) - 1 := by omega
    rw [harg] at this
    exact this

theorem narrowRun_error (search : Str → Nat) (full : Str) (total : Nat) :
    ∀ (len a j : Nat), 1 ≤ a → a ≤ j → j < a + len →
    iterCounts search full total (j - 1) < iterCounts search full total j →
    (∀ i, a ≤ i → i < j →
      iterCounts search full total i ≤ iterCounts search full total (i - 1)) →
    narrowRun search full (iterCounts search full total (a - 1)) (List.range' a len)
      = Except.error j := by
  intro len
  induction len with
  | zero => omega
  | succ len ih =>
    intro a j ha haj hj hviol hall
    rw [List.range'_succ]
    simp only [narrowRun]
    rw [← iterCounts_pos search full total a ha]
    by_cases hja : j = a
    · subst hja
      rw [if_neg (by omega)]
    · rw [if_pos (hall a le_rfl (by omega))]
      have := ih (a + 1) j (by omega) (by omega) (by omega) hviol
        (fun i h1 h2 => hall i (by omega) h2)
      simp only [Nat.add_sub_cancel] at this
      exact this

end ModelField

namespace ModelField

theorem narrowIteration_error_iff (search : Str → Nat) (full : Str)
    (total j : Nat) :
    narrowIteration search full total = Except.error j ↔
      (1 ≤ j ∧ j ≤ full.length ∧
        iterCounts search full total (j - 1) < iterCounts search full total j ∧
        ∀ i, 1 ≤ i → i < j →
          iterCounts search full total i ≤ iterCounts search full total (i - 1)) := by
  constructor
  · intro h
    by_cases hall : ∀ i, 1 ≤ i → i ≤ full.length →
        iterCounts search full total i ≤ iterCounts search full total (i - 1)
    · exfalso
      have hok := narrowRun_ok search full total full.length 1 le_rfl
        (fun i h1 h2 => hall i h1 (by omega))
      rw [narrowIteration] at h
      have htot : iterCounts search full total (1 - 1) = total := rfl
      rw [htot] at hok
      rw [hok] at h
      exact Except.noConfusion h
    · push_neg at hall
      have hex : ∃ i, 1 ≤ i ∧ i ≤ full.length ∧
          iterCounts search full total (i - 1) < iterCounts search full total i := by
        obtain ⟨i, h1, h2, h3⟩ := hall
        exact ⟨i, h1, h2, by omega⟩
      have hmin := Nat.find_spec hex
      have herr := narrowRun_error search full total full.length 1 (Nat.find hex)
        le_rfl hmin.1 (by omega) hmin.2.2
        (fun i h1 h2 => by
          have hnot := Nat.find_min hex h2
          push_neg at hnot
          have := hnot h1 (by omega)
          omega)
      rw [narrowIteration] at h
      have htot : iterCounts search full total (1 - 1) = total := rfl
      rw [htot] at herr
      rw [herr] at h
      have hj : j = Nat.find hex := by
        simpa using h.symm
      subst hj
      exact ⟨hmin.1, hmin.2.1, hmin.2.2,
        fun i h1 h2 => by
          have hnot := Nat.find_min hex h2
          push_neg at hnot
          have := hnot h1 (by omega)
          omega⟩
  · rintro ⟨h1, h2, h3, h4⟩
    have herr := narrowRun_error search full total full.length 1 j
      le_rfl h1 (by omega) h3 (fun i hi1 hi2 => h4 i hi1 hi2)
    have htot : iterCounts search full total (1 - 1) = total := rfl
    rw [htot] at herr
    rw [narrowIteration]
    exact herr

theorem narrowIteration_ok_iff (search : Str → Nat) (full : Str) (total : Nat) :
    narrowIteration search full total =
        Except.ok (iterCounts search full total full.length) ↔
      ∀ i, 1 ≤ i → i ≤ full.length →
        iterCounts search full total i ≤ iterCounts search full total (i - 1) := by
  constructor
  · intro h
    by_contra hall
    push_neg at hall
    have hex : ∃ i, 1 ≤ i ∧ i ≤ full.length ∧
        iterCounts search full total (i - 1) < iterCounts search full total i := by
      obtain ⟨i, h1, h2, h3⟩ := hall
      exact ⟨i, h1, h2, by omega⟩
    have hmin := Nat.find_spec hex
    have herr := narrowRun_error search full total full.length 1 (Nat.find hex)
      le_rfl hmin.1 (by omega) hmin.2.2
      (fun i h1 h2 => by
        have hnot := Nat.find_min hex h2
        push_neg at hnot
        have := hnot h1 (by omega)
        omega)
    have htot : iterCounts search full total (1 - 1) = total := rfl
    rw [htot] at herr
    rw [narrowIteration] at h
    rw [herr] at h
    exact Except.noConfusion h
  · intro hall
    have hok := narrowRun_ok search full total full.length 1 le_rfl
      (fun i h1 h2 => hall i h1 (by omega))
    have htot : iterCounts search full total (1 - 1) = total := rfl
    rw [htot] at hok
    have harg : 1 + full.length - 1 = full.length := by omega
    rw [harg] at hok
    rw [narrowIteration]
    exact hok

end ModelField

/-- C2: for every string `base` and every natural number `length`,
`build_alternating_case_prefix base length` returns exactly the first
`min length (len base)` characters of `base`, where the character at each
position is lowercased when the number of alphabetic characters strictly
before it is even (so the k-th alphabetic character, counting from 0 over
alphabetic characters only, is lowercased for even k and uppercased for odd
k), and every non-alphabetic character is returned unchanged in its
position. -/
theorem alternating_case_builds_spec (base : Str) (length : Nat) :
    ( ModelField.build_alternating_case_prefix base length).length
        = min length base.length ∧
    ∀ i, i < min length base.length →
      nthCp ( ModelField.build_alternating_case_prefix base length) i =
        (if isAlphaCp (nthCp (base.take length) i) then
          (if alphaCount ((base.take length).take i) % 2 = 0 then
            lowerCp (nthCp (base.take length) i)
          else upperCp (nthCp (base.take length) i))
        else nthCp (base.take length) i) := by
  constructor
  · unfold ModelField.build_alternating_case_prefix
    rw [ModelField.altCaseGo_length, List.length_take]
  · intro i hi
    have hlen : i < (base.take length).length := by simpa using hi
    have h := ModelField.altCaseGo_nth (base.take length) 0 i hlen
    unfold ModelField.build_alternating_case_prefix
    simpa using h

/-- Witness for `alternating_case_builds_spec`: on the docstring example
`base = "MF-123"`, position 1 holds the second alphabetic character, which
is uppercased (code point 70 is the letter F). -/
theorem alternating_case_builds_spec_witness :
    nthCp ( ModelField.build_alternating_case_prefix (S "MF-123") 6) 1 = 70 := by
  have h := (alternating_case_builds_spec (S "MF-123") 6).2 1 (by decide)
  rw [h]
  decide

/-- C9: the alternating-case value is case-insensitively equal to the plain
slice `base[:n]` (`casefold` of both coincide), has exactly
`min n (len base)` characters, and for `i ≤ j` the length-`i` value is a
string prefix of the length-`j` value, so successive search inputs of the
prefix-narrowing tests genuinely extend one another. -/
theorem alternating_case_algebraic_props (base : Str) (n i j : Nat) :
    casefoldStr ( ModelField.build_alternating_case_prefix base n) =
      casefoldStr (base.take n) ∧
    ( ModelField.build_alternating_case_prefix base n).length
        = min n base.length ∧
    (i ≤ j → ( ModelField.build_alternating_case_prefix base i) <+:
      ( ModelField.build_alternating_case_prefix base j)) := by
  refine ⟨?_, ?_, ?_⟩
  · unfold casefoldStr ModelField.build_alternating_case_prefix
    exact ModelField.altCaseGo_casefold (base.take n) 0
  · unfold ModelField.build_alternating_case_prefix
    rw [ModelField.altCaseGo_length, List.length_take]
  · intro hij
    unfold ModelField.build_alternating_case_prefix
    have htt : (base.take j).take i = base.take i := by
      rw [List.take_take, Nat.min_eq_left hij]
    rw [← htt, ModelField.altCaseGo_take]
    exact List.take_prefix i _

/-- Witness for `alternating_case_algebraic_props`: the length-2 value for
`"MF-123"` is a prefix of the length-4 value. -/
theorem alternating_case_algebraic_props_witness :
    ( ModelField.build_alternating_case_prefix (S "MF-123") 2) <+:
      ( ModelField.build_alternating_case_prefix (S "MF-123") 4) :=
  (alternating_case_algebraic_props (S "MF-123") 0 2 4).2.2 (by decide)

/-- C6: in the Model-filter prefix iteration, the record count never
increases as the value grows: the loop raises at iteration `j` exactly when
`j` is the first index whose search count exceeds the immediately preceding
count (the blank-search count playing the role of count 0), and it runs to
completion exactly when every iteration count is at most its predecessor. -/
theorem model_narrowing_iteration_spec (search : Str → Nat) (full : Str)
    (total j : Nat) :
    ( ModelField.narrowIteration search full total = Except.error j ↔
      (1 ≤ j ∧ j ≤ full.length ∧
        ModelField.iterCounts search full total (j - 1) <
          ModelField.iterCounts search full total j ∧
        ∀ i, 1 ≤ i → i < j →
          ModelField.iterCounts search full total i ≤
            ModelField.iterCounts search full total (i - 1))) ∧
    ( ModelField.narrowIteration search full total =
        Except.ok ( ModelField.iterCounts search full total full.length) ↔
      ∀ i, 1 ≤ i → i ≤ full.length →
        ModelField.iterCounts search full total i ≤
          ModelField.iterCounts search full total (i - 1)) :=
  ⟨ModelField.narrowIteration_error_iff search full total j,
    ModelField.narrowIteration_ok_iff search full total⟩

theorem dropWhile_eq_self_of_false {p : Nat → Bool} (s : Str)
    (h : ∀ c ∈ s, p c = false) : s.dropWhile p = s := by
  cases s with
  | nil => rfl
  | cons c rest =>
    rw [List.dropWhile_cons, h c (List.mem_cons_self c rest)]
    simp

theorem pyStrip_eq_self {s : Str} (h : ∀ c ∈ s, isSpaceCp c = false) :
    pyStrip s = s := by
  unfold pyStrip
  rw [dropWhile_eq_self_of_false s h]
  rw [dropWhile_eq_self_of_false _ (fun c hc => h c (List.mem_reverse.mp hc))]
  exact List.reverse_reverse s

namespace InvoiceDateField

theorem firstFormat_append (pre post : List (Str → Option Date))
    (f : Str → Option Date) (t : Str) (d : Date)
    (hpre : ∀ g ∈ pre, g t = none) (hf : f t = some d) :
    firstFormat (pre ++ f :: post) t = some d := by
  induction pre with
  | nil => simp [firstFormat, hf]
  | cons g rest ih =>
    have hg : g t = none := hpre g (List.mem_cons_self g rest)
    have ih' := ih (fun g' h' => hpre g' (List.mem_cons_of_mem g h'))
    simpa [firstFormat, hg] using ih'

theorem firstFormat_none_iff (fmts : List (Str → Option Date)) (t : Str) :
    firstFormat fmts t = none ↔ ∀ f ∈ fmts, f t = none := by
  induction fmts with
  | nil => simp [firstFormat]
  | cons f rest ih =>
    cases hf : f t with
    | some d => simp [firstFormat, hf]
    | none => simp [firstFormat, hf, ih]

theorem natOfDigits_pad4 (y : Nat) (hy : y ≤ 9999) :
    natOfDigits [digitCp (y / 1000 % 10), digitCp (y / 100 % 10),
      digitCp (y / 10 % 10), digitCp (y % 10)] = y := by
  simp [natOfDigits, digitCp]
  omega

theorem natOfDigits_pad2 (m : Nat) (hm : m ≤ 99) :
    natOfDigits [digitCp (m / 10 % 10), digitCp (m % 10)] = m := by
  simp [natOfDigits, digitCp]
  omega

theorem isDigitCp_digitCp (x : Nat) : isDigitCp (digitCp (x % 10)) = true := by
  simp [isDigitCp, digitCp]
  omega

theorem daysInMonth_le_31 (y m : Nat) : daysInMonth y m ≤ 31 := by
  unfold daysInMonth
  split_ifs <;> omega

theorem strptimeYMD_isoformat (dt : Date)
    (h : validDate dt.year dt.month dt.day = true) :
    strptimeYMD (isoformat dt) = some dt := by
  have hv := h
  rw [validDate, decide_eq_true_eq] at hv
  obtain ⟨h1, h2, h3, h4, h5, h6⟩ := hv
  have hdm := daysInMonth_le_31 dt.year dt.month
  have hnd45 : isDigitCp 45 = false := by decide
  have hY : parseY4 (isoformat dt) =
      some (dt.year, 45 :: [digitCp (dt.month / 10 % 10), digitCp (dt.month % 10),
        45, digitCp (dt.day / 10 % 10), digitCp (dt.day % 10)]) := by
    simp [parseY4, isoformat, List.takeWhile_cons, List.dropWhile_cons,
      isDigitCp_digitCp, hnd45, natOfDigits_pad4 dt.year h2]
  have hM : parseMonth2 [digitCp (dt.month / 10 % 10), digitCp (dt.month % 10),
      45, digitCp (dt.day / 10 % 10), digitCp (dt.day % 10)] =
      some (dt.month, 45 :: [digitCp (dt.day / 10 % 10), digitCp (dt.day % 10)]) := by
    simp [parseMonth2, List.takeWhile_cons, List.dropWhile_cons,
      isDigitCp_digitCp, hnd45, natOfDigits_pad2 dt.month (by omega)]
    omega
  have hD : parseDay2 [digitCp (dt.day / 10 % 10), digitCp (dt.day % 10)] =
      some (dt.day, []) := by
    simp [parseDay2, List.takeWhile_cons, List.dropWhile_cons,
      isDigitCp_digitCp, natOfDigits_pad2 dt.day (by omega)]
    omega
  have hmk : mkDate dt.year dt.month dt.day = some dt := by
    rw [mkDate, if_pos h]
  simp [strptimeYMD, hY, hM, hD, expectCp, hmk]

end InvoiceDateField

/-- C3: for every input whose stripped form some candidate format accepts,
`parse_invoice_date` returns the date produced by the FIRST accepting
format in the `POSSIBLE_FORMATS` order; in particular, for every date `d`
the `datetime.date` constructor accepts, `parse_invoice_date` applied to
`d.isoformat()` returns `d` (round trip through `YYYY-MM-DD`, the first
format of the list). -/
theorem invoice_date_first_format_and_roundtrip :
    (∀ (text : Str) (pre post : List (Str → Option InvoiceDateField.Date))
        (f : Str → Option InvoiceDateField.Date) (d : InvoiceDateField.Date),
      InvoiceDateField.POSSIBLE_FORMATS = pre ++ f :: post →
      (∀ g ∈ pre, g (pyStrip text) = none) →
      f (pyStrip text) = some d →
      InvoiceDateField.parse_invoice_date text = Except.ok d) ∧
    (∀ dt : InvoiceDateField.Date,
      InvoiceDateField.validDate dt.year dt.month dt.day = true →
      InvoiceDateField.parse_invoice_date (InvoiceDateField.isoformat dt)
        = Except.ok dt) := by
  constructor
  · intro text pre post f d hsplit hpre hf
    rw [InvoiceDateField.parse_invoice_date, hsplit,
      InvoiceDateField.firstFormat_append pre post f _ d hpre hf]
  · intro dt hvalid
    have hiso : pyStrip (InvoiceDateField.isoformat dt) =
        InvoiceDateField.isoformat dt := by
      apply pyStrip_eq_self
      intro c hc
      rw [InvoiceDateField.isoformat] at hc
      simp only [List.mem_cons, List.not_mem_nil, or_false] at hc
      have : c = 45 ∨ ∃ x, c = InvoiceDateField.digitCp (x % 10) := by
        rcases hc with h | h | h | h | h | h | h | h | h | h
        all_goals first
          | (left; exact h)
          | (right; exact ⟨_, h⟩)
      rcases this with h | ⟨x, h⟩ <;> subst h
      · simp [isSpaceCp]
      · simp [isSpaceCp, InvoiceDateField.digitCp]
        omega
    rw [InvoiceDateField.parse_invoice_date, hiso]
    have := InvoiceDateField.strptimeYMD_isoformat dt hvalid
    simp [InvoiceDateField.POSSIBLE_FORMATS, InvoiceDateField.firstFormat, this]

/-- Witness for `invoice_date_first_format_and_roundtrip`: round trip of
2025-10-30. -/
theorem invoice_date_first_format_and_roundtrip_witness :
    InvoiceDateField.parse_invoice_date
        (InvoiceDateField.isoformat ⟨2025, 10, 30⟩)
      = Except.ok ⟨2025, 10, 30⟩ :=
  invoice_date_first_format_and_roundtrip.2 ⟨2025, 10, 30⟩ (by decide)

/-- C4: `parse_invoice_date` raises (`Except.error`) if and only if its
stripped input is accepted by none of the six candidate formats, and it
returns a value (`Except.ok`) exactly otherwise. -/
theorem invoice_date_error_iff_no_format (text : Str) :
    ((∃ e, InvoiceDateField.parse_invoice_date text = Except.error e) ↔
      ∀ f ∈ InvoiceDateField.POSSIBLE_FORMATS, f (pyStrip text) = none) ∧
    ((∃ d, InvoiceDateField.parse_invoice_date text = Except.ok d) ↔
      ∃ f ∈ InvoiceDateField.POSSIBLE_FORMATS, ∃ d, f (pyStrip text) = some d) := by
  have herr : (∃ e, InvoiceDateField.parse_invoice_date text = Except.error e) ↔
      InvoiceDateField.firstFormat InvoiceDateField.POSSIBLE_FORMATS
        (pyStrip text) = none := by
    rw [InvoiceDateField.parse_invoice_date]
    cases hff : InvoiceDateField.firstFormat InvoiceDateField.POSSIBLE_FORMATS
        (pyStrip text) <;> simp
  constructor
  · rw [herr, InvoiceDateField.firstFormat_none_iff]
  · rw [InvoiceDateField.parse_invoice_date]
    cases hff : InvoiceDateField.firstFormat InvoiceDateField.POSSIBLE_FORMATS
        (pyStrip text) with
    | none =>
      rw [InvoiceDateField.firstFormat_none_iff] at hff
      simp only [Except.ok.injEq, exists_eq]
      constructor
      · rintro ⟨d, hd⟩
        exact absurd hd (by simp)
      · rintro ⟨f, hmem, d, hd⟩
        rw [hff f hmem] at hd
        exact Option.noConfusion hd
    | some d =>
      simp only [Except.ok.injEq, exists_eq]
      constructor
      · intro _
        clear herr
        revert hff
        generalize InvoiceDateField.POSSIBLE_FORMATS = fmts
        induction fmts with
        | nil => intro hff; exact absurd hff (by simp [InvoiceDateField.firstFormat])
        | cons f rest ih =>
          intro hff
          rw [InvoiceDateField.firstFormat] at hff
          cases hf : f (pyStrip text) with
          | some d' => exact ⟨f, by simp, d', hf⟩
          | none =>
            rw [hf] at hff
            obtain ⟨g, hg, hd⟩ := ih hff
            exact ⟨g, by simp [hg], hd⟩
      · intro _
        exact ⟨d, rfl⟩

namespace ModelField

theorem manufacturer_altCaseGo_eq (cs : Str) (k : Nat) :
    ManufacturerField.altCaseGo cs k = ModelField.altCaseGo cs k := by
  induction cs generalizing k with
  | nil => rfl
  | cons c cs ih =>
    simp only [ManufacturerField.altCaseGo, ModelField.altCaseGo]
    split <;> simp [ih]

theorem sourceid_altCaseGo_eq (cs : Str) (k : Nat) :
    SourceIdField.altCaseGo cs k = ModelField.altCaseGo cs k := by
  induction cs generalizing k with
  | nil => rfl
  | cons c cs ih =>
    simp only [SourceIdField.altCaseGo, ModelField.altCaseGo]
    split <;> simp [ih]

end ModelField

/-- C10: the duplicated helper definitions are extensionally equal: the two
`parse_invoice_date` copies agree on every input (same date or raise on the
same inputs, the raised message included), and the three
`build_alternating_case_prefix` copies return the same string for every
`(base, length)`. -/
theorem duplicated_helpers_agree :
    (∀ t : Str, InvoiceDateField.parse_invoice_date t
        = InvoiceDateStartEnd.parse_invoice_date t) ∧
    (∀ (base : Str) (n : Nat),
      ( ManufacturerField.build_alternating_case_prefix base n)
          = ( ModelField.build_alternating_case_prefix base n) ∧
      ( SourceIdField.build_alternating_case_prefix base n)
          = ( ModelField.build_alternating_case_prefix base n)) := by
  constructor
  · intro t
    rfl
  · intro base n
    constructor
    · unfold ManufacturerField.build_alternating_case_prefix
        ModelField.build_alternating_case_prefix
      exact ModelField.manufacturer_altCaseGo_eq (base.take n) 0
    · unfold SourceIdField.build_alternating_case_prefix
        ModelField.build_alternating_case_prefix
      exact ModelField.sourceid_altCaseGo_eq (base.take n) 0

namespace ModelField

theorem takeWhile_all_append {p : Nat → Bool} (a b : Str)
    (h : ∀ c ∈ a, p c = true) : (a ++ b).takeWhile p = a ++ b.takeWhile p := by
  induction a with
  | nil => simp
  | cons c rest ih =>
    have hc := h c (List.mem_cons_self c rest)
    have ih' := ih (fun x hx => h x (List.mem_cons_of_mem c hx))
    simp [List.takeWhile_cons, hc, ih']

theorem dropWhile_all_append {p : Nat → Bool} (a b : Str)
    (h : ∀ c ∈ a, p c = true) : (a ++ b).dropWhile p = b.dropWhile p := by
  induction a with
  | nil => simp
  | cons c rest ih =>
    have hc := h c (List.mem_cons_self c rest)
    have ih' := ih (fun x hx => h x (List.mem_cons_of_mem c hx))
    simp [List.dropWhile_cons, hc, ih']

theorem takeWhile_head_false {p : Nat → Bool} (b : Str)
    (h : ∀ c, b.head? = some c → p c = false) : b.takeWhile p = [] := by
  cases b with
  | nil => rfl
  | cons c rest => simp [List.takeWhile_cons, h c rfl]

theorem dropWhile_head_false {p : Nat → Bool} (b : Str)
    (h : ∀ c, b.head? = some c → p c = false) : b.dropWhile p = b := by
  cases b with
  | nil => rfl
  | cons c rest => simp [List.dropWhile_cons, h c rfl]

theorem head?_dropWhile_false {p : Nat → Bool} (l : Str) (c : Nat)
    (h : (l.dropWhile p).head? = some c) : p c = false := by
  induction l with
  | nil => simp [List.dropWhile] at h
  | cons x rest ih =>
    rw [List.dropWhile_cons] at h
    by_cases hx : p x
    · rw [if_pos hx] at h
      exact ih h
    · rw [if_neg hx] at h
      simp only [List.head?_cons, Option.some.injEq] at h
      subst h
      cases hpc : p x with
      | false => rfl
      | true => exact absurd hpc hx

theorem isSpaceCp_of_digit (c : Nat) (h : isDigitCp c = true) :
    isSpaceCp c = false := by
  simp only [isDigitCp, decide_eq_true_eq] at h
  simp only [isSpaceCp, decide_eq_false_iff_not]
  omega

theorem patMatchHead_nil (n : Nat) : ¬ patMatchHead [] n := by
  rintro ⟨ws, ds, rest, heq, -⟩
  have hne : trcLit ≠ [] := by decide
  have h0 : trcLit ++ ws ++ ds ++ rest = [] := heq.symm
  rcases List.append_eq_nil.mp h0 with ⟨h1, -⟩
  rcases List.append_eq_nil.mp h1 with ⟨h2, -⟩
  rcases List.append_eq_nil.mp h2 with ⟨h3, -⟩
  exact hne h3

theorem matchAt_iff (a : Str) (n : Nat) :
    matchAt a = some n ↔ patMatchHead a n := by
  constructor
  · intro h
    rw [matchAt] at h
    by_cases hp : trcLit.isPrefixOf a
    · rw [if_pos hp] at h
      obtain ⟨tail, htail⟩ := List.isPrefixOf_iff_prefix.mp hp
      have hdrop : a.drop trcLit.length = tail := by
        rw [← htail]
        exact List.drop_left _ _
      rw [hdrop] at h
      split_ifs at h with hws hds
      simp only [Option.some.injEq] at h
      refine ⟨tail.takeWhile isSpaceCp,
        (tail.dropWhile isSpaceCp).takeWhile isDigitCp,
        (tail.dropWhile isSpaceCp).dropWhile isDigitCp, ?_, ?_, ?_, ?_, ?_, ?_, ?_⟩
      · simp only [List.append_assoc]
        rw [List.takeWhile_append_dropWhile isDigitCp (tail.dropWhile isSpaceCp),
          List.takeWhile_append_dropWhile isSpaceCp tail]
        exact htail.symm
      · intro hnil
        rw [hnil] at hws
        exact hws rfl
      · intro c hc
        exact List.mem_takeWhile_imp hc
      · intro hnil
        rw [hnil] at hds
        exact hds rfl
      · intro c hc
        exact List.mem_takeWhile_imp hc
      · intro c hc
        exact head?_dropWhile_false _ c hc
      · exact h.symm
    · rw [if_neg hp] at h
      exact Option.noConfusion h
  · rintro ⟨ws, ds, rest, heq, hws, hwsall, hds, hdsall, hrest, hn⟩
    have hdsr_head : ∀ c, (ds ++ rest).head? = some c → isSpaceCp c = false := by
      intro c hc
      cases ds with
      | nil => exact absurd rfl hds
      | cons d0 drest =>
        simp only [List.cons_append, List.head?_cons, Option.some.injEq] at hc
        rw [← hc]
        exact isSpaceCp_of_digit d0 (hdsall d0 (List.mem_cons_self d0 drest))
    have heq' : a = trcLit ++ (ws ++ ds ++ rest) := by
      rw [heq]
      simp [List.append_assoc]
    have hp : trcLit.isPrefixOf a = true := by
      rw [List.isPrefixOf_iff_prefix]
      exact ⟨ws ++ ds ++ rest, heq'.symm⟩
    have hdrop : a.drop trcLit.length = ws ++ ds ++ rest := by
      rw [heq']
      exact List.drop_left _ _
    have htw : (ws ++ ds ++ rest).takeWhile isSpaceCp = ws := by
      rw [List.append_assoc, takeWhile_all_append ws _ hwsall,
        takeWhile_head_false _ hdsr_head, List.append_nil]
    have hdw : (ws ++ ds ++ rest).dropWhile isSpaceCp = ds ++ rest := by
      rw [List.append_assoc, dropWhile_all_append ws _ hwsall,
        dropWhile_head_false _ hdsr_head]
    have htd : (ds ++ rest).takeWhile isDigitCp = ds := by
      rw [takeWhile_all_append ds _ hdsall, takeWhile_head_false _ hrest,
        List.append_nil]
    rw [matchAt, if_pos hp, hdrop]
    simp only [htw, hdw, htd]
    rw [if_neg (by simp [List.isEmpty_iff, hws]), if_neg (by simp [List.isEmpty_iff, hds])]
    rw [hn]

theorem reSearch_iff (s : Str) (n : Nat) :
    reSearch s = some n ↔
      ∃ i, patMatchAt s i n ∧ ∀ j m, j < i → ¬ patMatchAt s j m := by
  induction s with
  | nil =>
    constructor
    · intro h
      exact absurd h (by simp [reSearch])
    · rintro ⟨i, hi, -⟩
      rw [patMatchAt, List.drop_nil] at hi
      exact absurd hi (patMatchHead_nil n)
  | cons c rest ih =>
    cases hm : matchAt (c :: rest) with
    | some m =>
      have hpm : patMatchHead (c :: rest) m := (matchAt_iff _ _).mp hm
      constructor
      · intro h
        rw [reSearch, hm] at h
        injection h with h'
        subst h'
        exact ⟨0, by simpa [patMatchAt] using hpm,
          fun j m' hj => absurd hj (Nat.not_lt_zero j)⟩
      · rintro ⟨i, hi, hmin⟩
        cases i with
        | zero =>
          have hsome : matchAt (c :: rest) = some n :=
            (matchAt_iff _ _).mpr (by simpa [patMatchAt] using hi)
          rw [reSearch, hm, ← hm, hsome]
        | succ i =>
          exact absurd (by simpa [patMatchAt] using hpm)
            (hmin 0 m (Nat.succ_pos i))
    | none =>
      have hnpm : ∀ m, ¬ patMatchHead (c :: rest) m := fun m hpm =>
        Option.noConfusion (hm ▸ (matchAt_iff (c :: rest) m).mpr hpm)
      rw [reSearch, hm, ih]
      constructor
      · rintro ⟨i, hi, hmin⟩
        refine ⟨i + 1, by simpa [patMatchAt, List.drop_succ_cons] using hi, ?_⟩
        intro j m hj
        cases j with
        | zero => simpa [patMatchAt] using hnpm m
        | succ j =>
          have := hmin j m (by omega)
          simpa [patMatchAt, List.drop_succ_cons] using this
      · rintro ⟨i, hi, hmin⟩
        cases i with
        | zero => exact absurd (by simpa [patMatchAt] using hi) (hnpm n)
        | succ i =>
          refine ⟨i, by simpa [patMatchAt, List.drop_succ_cons] using hi, ?_⟩
          intro j m hj
          have := hmin (j + 1) m (by omega)
          simpa [patMatchAt, List.drop_succ_cons] using this

theorem reSearch_none_iff (s : Str) :
    reSearch s = none ↔ ∀ i m, ¬ patMatchAt s i m := by
  induction s with
  | nil =>
    constructor
    · intro _ i m hi
      rw [patMatchAt, List.drop_nil] at hi
      exact patMatchHead_nil m hi
    · intro _
      rfl
  | cons c rest ih =>
    cases hm : matchAt (c :: rest) with
    | some m =>
      have hpm : patMatchHead (c :: rest) m := (matchAt_iff _ _).mp hm
      constructor
      · intro h
        rw [reSearch, hm] at h
        exact Option.noConfusion h
      · intro hall
        exact absurd (by simpa [patMatchAt] using hpm) (hall 0 m)
    | none =>
      have hnpm : ∀ m, ¬ patMatchHead (c :: rest) m := fun m hpm =>
        Option.noConfusion (hm ▸ (matchAt_iff (c :: rest) m).mpr hpm)
      rw [reSearch, hm, ih]
      constructor
      · intro hall i m
        cases i with
        | zero => simpa [patMatchAt] using hnpm m
        | succ i =>
          have := hall i m
          simpa [patMatchAt, List.drop_succ_cons] using this
      · intro hall i m
        have := hall (i + 1) m
        simpa [patMatchAt, List.drop_succ_cons] using this

end ModelField

/-- C5: `get_total_record_count` returns the integer value of the leftmost
occurrence of the pattern `Total Record Count` followed by at least one
whitespace character and then a maximal digit run (the regex
`Total Record Count\s+(\d+)` searched over the stripped page text), and it
raises an `AssertionError` exactly when the stripped text contains no such
pattern. -/
theorem total_record_count_regex_spec (text : Str) (n : Nat) :
    ( ModelField.get_total_record_count text = Except.ok n ↔
      ∃ i, ModelField.patMatchAt (pyStrip text) i n ∧
        ∀ j m, j < i → ¬ ModelField.patMatchAt (pyStrip text) j m) ∧
    ((∃ e, ModelField.get_total_record_count text = Except.error e) ↔
      ∀ i m, ¬ ModelField.patMatchAt (pyStrip text) i m) := by
  constructor
  · rw [← ModelField.reSearch_iff]
    unfold ModelField.get_total_record_count
    cases ModelField.reSearch (pyStrip text) with
    | none => simp
    | some m => simp
  · rw [← ModelField.reSearch_none_iff]
    unfold ModelField.get_total_record_count
    cases ModelField.reSearch (pyStrip text) with
    | none => simp
    | some m => simp

namespace StatusSpecs

theorem containsSub_iff (t s : Str) : containsSub t s = true ↔ occursIn t s := by
  induction s with
  | nil =>
    simp only [containsSub]
    constructor
    · intro h
      have ht : t = [] := by
        cases t with
        | nil => rfl
        | cons a b => exact absurd h (by simp)
      exact ⟨[], [], by simp [ht]⟩
    · rintro ⟨pre, post, hp⟩
      have h0 := List.append_eq_nil.mp hp.symm
      have h1 := List.append_eq_nil.mp h0.1
      rw [h1.2]
      rfl
  | cons c rest ih =>
    simp only [containsSub, Bool.or_eq_true]
    constructor
    · intro h
      rcases h with hpre | hrec
      · obtain ⟨post, hpost⟩ := List.isPrefixOf_iff_prefix.mp hpre
        exact ⟨[], post, by simp [← hpost]⟩
      · obtain ⟨pre, post, hp⟩ := ih.mp hrec
        exact ⟨c :: pre, post, by simp [hp]⟩
    · rintro ⟨pre, post, hp⟩
      cases pre with
      | nil =>
        left
        rw [List.isPrefixOf_iff_prefix]
        exact ⟨post, by simpa using hp.symm⟩
      | cons c' pre' =>
        right
        simp only [List.cons_append, List.cons.injEq] at hp
        exact ih.mpr ⟨pre', post, hp.2⟩

theorem some_false_iff (b : Bool) : (some b = some false) ↔ ¬ (b = true) := by
  cases b <;> simp

end StatusSpecs

/-- C7: `assert_status_cell_matches_spec(cell, status_key)` succeeds if and
only if, for the entry `STATUS_UI_SPECS[status_key]`, every selector in
`required_icon_selectors` matches at least one element inside the cell and
every string in `must_contain` occurs as a substring of the stripped inner
text of the cell; a cell missing any required icon or any required text
fragment makes it raise an `AssertionError` (the `some false` outcome). -/
theorem status_cell_assertion_iff (cell : StatusSpecs.Cell) (key : Str)
    (spec : StatusSpecs.StatusUISpec)
    (hspec : StatusSpecs.STATUS_UI_SPECS.lookup key = some spec) :
    (StatusSpecs.assert_status_cell_matches_spec cell key = some true ↔
      ((∀ sel ∈ spec.required_icon_selectors, 1 ≤ cell.locatorCount sel) ∧
        ∀ t ∈ spec.must_contain,
          StatusSpecs.occursIn t (pyStrip cell.innerText))) ∧
    (StatusSpecs.assert_status_cell_matches_spec cell key = some false ↔
      ¬ ((∀ sel ∈ spec.required_icon_selectors, 1 ≤ cell.locatorCount sel) ∧
        ∀ t ∈ spec.must_contain,
          StatusSpecs.occursIn t (pyStrip cell.innerText))) := by
  have hbody : StatusSpecs.assert_status_cell_matches_spec cell key =
      some (spec.required_icon_selectors.all
          (fun sel => decide (1 ≤ cell.locatorCount sel)) &&
        spec.must_contain.all
          (fun t => StatusSpecs.containsSub t (pyStrip cell.innerText))) := by
    rw [StatusSpecs.assert_status_cell_matches_spec, hspec]
  have hiff : (spec.required_icon_selectors.all
          (fun sel => decide (1 ≤ cell.locatorCount sel)) &&
        spec.must_contain.all
          (fun t => StatusSpecs.containsSub t (pyStrip cell.innerText))) = true ↔
      ((∀ sel ∈ spec.required_icon_selectors, 1 ≤ cell.locatorCount sel) ∧
        ∀ t ∈ spec.must_contain,
          StatusSpecs.occursIn t (pyStrip cell.innerText)) := by
    rw [Bool.and_eq_true, List.all_eq_true, List.all_eq_true]
    simp only [decide_eq_true_eq, StatusSpecs.containsSub_iff]
  constructor
  · rw [hbody]
    simp only [Option.some.injEq]
    exact hiff
  · rw [hbody, StatusSpecs.some_false_iff, hiff]

/-- Witness for `status_cell_assertion_iff`: the `Expired` entry against a
cell that carries the danger icon once and shows the two required text
fragments. -/
theorem status_cell_assertion_iff_witness :
    StatusSpecs.assert_status_cell_matches_spec
        ⟨fun sel => if sel = S "i.bi-x-circle-fill.text-danger" then 1 else 0,
          S " Ineligible Expired "⟩ (S "Expired") = some true := by
  have h := (status_cell_assertion_iff
    ⟨fun sel => if sel = S "i.bi-x-circle-fill.text-danger" then 1 else 0,
      S " Ineligible Expired "⟩ (S "Expired")
    { must_contain := [S "Ineligible", S "Expired"],
      required_icon_selectors := [S "i.bi-x-circle-fill.text-danger"] }
    (by rfl)).1
  refine h.mpr ⟨?_, ?_⟩
  · intro sel hsel
    simp only [List.mem_cons, List.not_mem_nil, or_false] at hsel
    subst hsel
    decide
  · intro t ht
    simp only [List.mem_cons, List.not_mem_nil, or_false] at ht
    rcases ht with h1 | h1 <;> subst h1 <;>
      exact (StatusSpecs.containsSub_iff _ _).mp (by decide)

namespace MarketActorCheck

theorem mem_insertName (s : List Str) (x y : Str) :
    y ∈ insertName s x ↔ y ∈ s ∨ y = x := by
  rw [insertName]
  split_ifs with hx
  · constructor
    · intro h
      exact Or.inl h
    · rintro (h | h)
      · exact h
      · rw [h]
        exact hx
  · simp [List.mem_append]

theorem insertName_nodup (s : List Str) (x : Str) (h : s.Nodup) :
    (insertName s x).Nodup := by
  rw [insertName]
  split_ifs with hx
  · exact h
  · rw [List.nodup_append]
    refine ⟨h, List.nodup_singleton x, fun a ha hax => ?_⟩
    simp only [List.mem_singleton] at hax
    subst hax
    exact hx ha

theorem updateSet_nodup (xs : List Str) (s : List Str) (h : s.Nodup) :
    (updateSet s xs).Nodup := by
  induction xs generalizing s with
  | nil => exact h
  | cons x rest ih => exact ih _ (insertName_nodup s x h)

theorem mem_updateSet (xs : List Str) (s : List Str) (y : Str) :
    y ∈ updateSet s xs ↔ y ∈ s ∨ y ∈ xs := by
  induction xs generalizing s with
  | nil => simp [updateSet]
  | cons x rest ih =>
    show y ∈ updateSet (insertName s x) rest ↔ _
    rw [ih, mem_insertName]
    simp only [List.mem_cons]
    tauto

theorem setEqB_iff (a b : List Str) :
    setEqB a b = true ↔ ∀ x, x ∈ a ↔ x ∈ b := by
  rw [setEqB, Bool.and_eq_true, List.all_eq_true, List.all_eq_true]
  simp only [decide_eq_true_eq]
  constructor
  · rintro ⟨h1, h2⟩ x
    exact ⟨h1 x, h2 x⟩
  · intro h
    exact ⟨fun x hx => (h x).mp hx, fun x hx => (h x).mpr hx⟩

theorem resultNames_maStep (names : List Str) (stable : Nat) (r : MARound) :
    resultNames (maStep names stable r) = updateSet names (cleanTexts r.cards) := by
  rw [maStep]
  split_ifs <;> rfl

theorem stableAfter_start_le_one (r : MARound) : stableAfter [] 0 r ≤ 1 := by
  rw [stableAfter]
  split_ifs <;> omega

theorem marketActorCheck_eq_step (rounds : Nat → MARound) :
    marketActorCheck rounds = maStep [] 0 (rounds 0) := rfl

end MarketActorCheck

/-- C8: the market-actor-card collection loop runs its body exactly once —
every branch of the body leaves the loop (break, assert, raise or return) —
hence terminates well within the `max_rounds = 10` safety cap; the body
breaks out of the loop as soon as the updated `stable_rounds` counter
reaches `stable_rounds_to_stop = 2`; the collected `dashboard_ma_names` set
holds each stripped non-empty card name at most once; and the comparison
passes exactly when that set equals the set of Recent Sales Market Actor
dropdown options with `All` excluded. -/
theorem market_actor_loop_spec (rounds : Nat → MarketActorCheck.MARound) :
    (MarketActorCheck.marketActorCheck rounds
        = MarketActorCheck.maStep [] 0 (rounds 0)) ∧
    (∀ names stable r, 2 ≤ MarketActorCheck.stableAfter names stable r →
      MarketActorCheck.maStep names stable r
        = MarketActorCheck.MAResult.brokeOut
            (MarketActorCheck.updateSet names
              (MarketActorCheck.cleanTexts r.cards))) ∧
    (MarketActorCheck.resultNames
        (MarketActorCheck.marketActorCheck rounds)).Nodup ∧
    (∀ x, x ∈ MarketActorCheck.resultNames
        (MarketActorCheck.marketActorCheck rounds) ↔
      x ∈ MarketActorCheck.cleanTexts (rounds 0).cards) ∧
    (MarketActorCheck.marketActorCheck rounds
        = MarketActorCheck.MAResult.passed
            (MarketActorCheck.updateSet []
              (MarketActorCheck.cleanTexts (rounds 0).cards)) ↔
      ∀ x, x ∈ MarketActorCheck.updateSet []
          (MarketActorCheck.cleanTexts (rounds 0).cards) ↔
        x ∈ MarketActorCheck.activeOptions (rounds 0).options) := by
  refine ⟨rfl, ?_, ?_, ?_, ?_⟩
  · intro names stable r h
    rw [MarketActorCheck.maStep, if_pos h]
  · rw [MarketActorCheck.marketActorCheck_eq_step,
      MarketActorCheck.resultNames_maStep]
    exact MarketActorCheck.updateSet_nodup _ [] List.nodup_nil
  · intro x
    rw [MarketActorCheck.marketActorCheck_eq_step,
      MarketActorCheck.resultNames_maStep, MarketActorCheck.mem_updateSet]
    simp
  · rw [MarketActorCheck.marketActorCheck_eq_step, MarketActorCheck.maStep]
    have hs := MarketActorCheck.stableAfter_start_le_one (rounds 0)
    rw [if_neg (by omega)]
    split_ifs with hset
    · constructor
      · intro _
        exact (MarketActorCheck.setEqB_iff _ _).mp hset
      · intro _
        rfl
    · constructor
      · intro h
        exact absurd h (by simp)
      · intro h
        exact absurd ((MarketActorCheck.setEqB_iff _ _).mpr h) hset

/-- Witness for `market_actor_loop_spec`: a round whose cards add no new
name on top of one previous stable round makes the loop break out. -/
theorem market_actor_loop_spec_witness :
    MarketActorCheck.maStep [S "A"] 1 ⟨[S "A"], []⟩
      = MarketActorCheck.MAResult.brokeOut [S "A"] := by
  have h := (market_actor_loop_spec (fun _ => ⟨[], []⟩)).2.1
    [S "A"] 1 ⟨[S "A"], []⟩ (by decide)
  rw [h]
  decide

theorem mem_of_head?_eq (l : Str) (c : Nat) (h : l.head? = some c) : c ∈ l := by
  cases l with
  | nil => exact Option.noConfusion h
  | cons x rest =>
    simp only [List.head?_cons, Option.some.injEq] at h
    rw [← h]
    exact List.mem_cons_self x rest

theorem head?_append_left (l₁ l₂ : Str) (h : l₁ ≠ []) :
    (l₁ ++ l₂).head? = l₁.head? := by
  cases l₁ with
  | nil => exact absurd rfl h
  | cons x rest => rfl

theorem pyStrip_eq_self_of_ends (s : Str)
    (h1 : ∀ c, s.head? = some c → isSpaceCp c = false)
    (h2 : ∀ c, s.getLast? = some c → isSpaceCp c = false) :
    pyStrip s = s := by
  rw [pyStrip]
  rw [ModelField.dropWhile_head_false s h1]
  rw [ModelField.dropWhile_head_false s.reverse
    (fun c hc => h2 c (by rw [List.head?_reverse] at hc; exact hc))]
  exact List.reverse_reverse s

namespace UnassignedWidget

theorem removeTRC_append (x : Str) :
    removeTRC (ModelField.trcLit ++ x) = removeTRC x := by
  have h84 : ModelField.trcLit = 84 :: ModelField.trcLit.tail := by decide
  have hpre : ModelField.trcLit.isPrefixOf (ModelField.trcLit ++ x) = true := by
    rw [List.isPrefixOf_iff_prefix]
    exact ⟨x, rfl⟩
  rw [h84, List.cons_append]
  rw [removeTRC]
  rw [← List.cons_append, ← h84, if_pos hpre]
  congr 1

theorem removeTRC_of_no_T (s : Str) (h : ∀ c ∈ s, c ≠ 84) :
    removeTRC s = s := by
  induction s with
  | nil => rw [removeTRC]
  | cons c rest ih =>
    have hc : c ≠ 84 := h c (List.mem_cons_self c rest)
    have hpre : ModelField.trcLit.isPrefixOf (c :: rest) = false := by
      cases hb : ModelField.trcLit.isPrefixOf (c :: rest) with
      | false => rfl
      | true =>
        exfalso
        obtain ⟨t, ht⟩ := List.isPrefixOf_iff_prefix.mp hb
        have h84 : ModelField.trcLit = 84 :: ModelField.trcLit.tail := by decide
        rw [h84, List.cons_append] at ht
        injection ht with ht1 _
        exact hc ht1.symm
    rw [removeTRC, if_neg (by rw [hpre]; exact Bool.false_ne_true)]
    rw [ih (fun x hx => h x (List.mem_cons_of_mem c hx))]

end UnassignedWidget

/-- C1: in the Unassigned-widget dashboard test, every run that reaches the
final comparison passes exactly when the integer parsed from the Total
Record Count text equals the integer displayed by the Unassigned counter
link (`int(total_record_count) == int(unassigned_counter)`), any inequality
failing the test; and on a well-formed paragraph — the literal followed by
whitespace and a digit string — the integer parsed by the
`replace`-and-`strip` sequence is exactly that digit string's value. -/
theorem unassigned_final_assertion_iff :
    (∀ totalText counterText b,
      UnassignedWidget.finalComparison totalText counterText = some b →
      (b = true ↔
        natOfDigits (pyStrip (UnassignedWidget.removeTRC (pyStrip totalText)))
          = natOfDigits (pyStrip counterText))) ∧
    (∀ ws ds counter,
      (∀ c ∈ ws, isSpaceCp c = true) → (∀ c ∈ ds, isDigitCp c = true) →
      ds ≠ [] → pyIsDigitStr (pyStrip counter) = true →
      UnassignedWidget.finalComparison (ModelField.trcLit ++ ws ++ ds) counter
        = some (natOfDigits ds == natOfDigits (pyStrip counter))) := by
  constructor
  · intro totalText counterText b h
    rw [UnassignedWidget.finalComparison] at h
    split_ifs at h with h1 h2 h3
    injection h with h'
    rw [← h']
    exact beq_iff_eq
  · intro ws ds counter hws hds hdsne hcnt
    have hdsnospace : ∀ c, c ∈ ds → isSpaceCp c = false :=
      fun c hc => ModelField.isSpaceCp_of_digit c (hds c hc)
    have htrcne : ModelField.trcLit ≠ [] := by decide
    have hhead : ∀ c, (ModelField.trcLit ++ ws ++ ds).head? = some c →
        isSpaceCp c = false := by
      intro c hc
      rw [head?_append_left _ _ (by simp [htrcne]),
        head?_append_left _ _ htrcne] at hc
      have : ModelField.trcLit.head? = some 84 := by decide
      rw [this] at hc
      injection hc with hc'
      rw [← hc']
      decide
    have hlast : ∀ c, (ModelField.trcLit ++ ws ++ ds).getLast? = some c →
        isSpaceCp c = false := by
      intro c hc
      rw [← List.head?_reverse, List.reverse_append,
        head?_append_left _ _ (by simp [hdsne])] at hc
      exact hdsnospace c (List.mem_reverse.mp (mem_of_head?_eq _ _ hc))
    have hstriptotal : pyStrip (ModelField.trcLit ++ ws ++ ds)
        = ModelField.trcLit ++ ws ++ ds :=
      pyStrip_eq_self_of_ends _ hhead hlast
    have hpre : ModelField.trcLit.isPrefixOf (ModelField.trcLit ++ ws ++ ds)
        = true := by
      rw [List.isPrefixOf_iff_prefix]
      exact ⟨ws ++ ds, by simp [List.append_assoc]⟩
    have hrem : UnassignedWidget.removeTRC (ModelField.trcLit ++ ws ++ ds)
        = ws ++ ds := by
      have hassoc : ModelField.trcLit ++ ws ++ ds
          = ModelField.trcLit ++ (ws ++ ds) := by
        simp [List.append_assoc]
      rw [hassoc, UnassignedWidget.removeTRC_append]
      apply UnassignedWidget.removeTRC_of_no_T
      intro c hc
      rcases List.mem_append.mp hc with hcw | hcd
      · have := hws c hcw
        simp only [isSpaceCp, decide_eq_true_eq] at this
        omega
      · have := hds c hcd
        simp only [isDigitCp, decide_eq_true_eq] at this
        omega
    have hdshead : ∀ c, ds.head? = some c → isSpaceCp c = false :=
      fun c hc => hdsnospace c (mem_of_head?_eq _ _ hc)
    have hdsrev : ∀ c, ds.reverse.head? = some c → isSpaceCp c = false :=
      fun c hc => hdsnospace c (List.mem_reverse.mp (mem_of_head?_eq _ _ hc))
    have hstripwd : pyStrip (ws ++ ds) = ds := by
      rw [pyStrip, ModelField.dropWhile_all_append ws ds hws,
        ModelField.dropWhile_head_false ds hdshead,
        ModelField.dropWhile_head_false ds.reverse hdsrev]
      exact List.reverse_reverse ds
    have hisdigit : pyIsDigitStr ds = true := by
      rw [pyIsDigitStr, Bool.and_eq_true, List.all_eq_true]
      constructor
      · simp [List.isEmpty_iff, hdsne]
      · exact hds
    rw [UnassignedWidget.finalComparison, hstriptotal, if_pos hcnt,
      if_pos hpre, hrem, hstripwd, if_pos hisdigit]

/-- Witness for `unassigned_final_assertion_iff`: the paragraph
`Total Record Count 42` against the counter text `42`. -/
theorem unassigned_final_assertion_iff_witness :
    UnassignedWidget.finalComparison (S "Total Record Count 42") (S "42")
      = some true := by
  have h := unassigned_final_assertion_iff.2 [32] (S "42") (S "42")
    (by decide) (by decide) (by decide) (by decide)
  have harg : ModelField.trcLit ++ [32] ++ S "42" = S "Total Record Count 42" := by
    decide
  rw [harg] at h
  rw [h]
  decide
